import Mathlib

/-!
Verification of the asias_fds_profiles example profile nodes and notebook
utilities.  The repository defines example measure nodes (flight attributes,
key time instances, key point values, flight phases, derived parameters)
against an external flight-data-analysis engine, plus flight-set selector
functions and notebook helpers.  We embed each node's `derive` computation
as a pure Lean function (in-place mutation of a dependency is made explicit
by returning the post-state of the mutated input), and prove the spec's
testable properties about them.

Sampled series are embedded as lists over ℚ: a continuous parameter is a
`List (ℚ × Bool)` of (value, masked) pairs, a discrete (multistate)
parameter is a `List String` of state labels.  Index positions are `Nat`
for array slicing and ℚ for the fractional sample positions stored in
sections and key point records.
-/

/-- The engine's `Section` record (a.k.a. Phase):
`Section = namedtuple('Section', 'name slice start_edge stop_edge')`.
The `slice` is the clipped half-open index interval used for array
indexing; `start_edge`/`stop_edge` are the original unclipped fractional
edges, which may lie outside the clipped interval. -/
structure Section where
  name : String
  slice : Nat × Nat
  start_edge : ℚ
  stop_edge : ℚ
deriving DecidableEq

/-- Python's `min` over a list (the source only applies it to non-empty
lists; we return 0 on `[]` so the function is total). -/
def pyMin : List ℚ → ℚ
  | [] => 0
  | x :: t => t.foldl min x

namespace example_profile

/-- `InitialApproach.derive` (example_profile.py, also parallel_profile.py):
if both the Approach and the Final Approach section lists are non-empty,
create one phase `slice(min start_edge of approach, min start_edge of final)`;
otherwise create nothing.  `create_phase` is embedded as emitting the
interval's bounds. -/
def InitialApproach.derive (approach final : List Section) : List (ℚ × ℚ) :=
  if 0 < approach.length ∧ 0 < final.length then
    [(pyMin (approach.map Section.start_edge), pyMin (final.map Section.start_edge))]
  else []

end example_profile

/-- One step of `airspeed.array[section.slice] = 0.0`: walking the array with
a running index `j`, samples whose index lies in the half-open slice
`[lo, hi)` become unmasked zeros (numpy assignment to a masked-array slice
sets the data and clears the mask there); all other samples are kept. -/
def zeroSectionAux (lo hi : Nat) : Nat → List (ℚ × Bool) → List (ℚ × Bool)
  | _, [] => []
  | j, v :: t =>
      (if lo ≤ j ∧ j < hi then ((0 : ℚ), false) else v) :: zeroSectionAux lo hi (j + 1) t

/-- `airspeed.array[section.slice] = 0.0` for one section slice. -/
def zeroSection (arr : List (ℚ × Bool)) (sl : Nat × Nat) : List (ℚ × Bool) :=
  zeroSectionAux sl.1 sl.2 0 arr

/-- The `for section in grounded:` loop of `DistanceTravelledInAir.derive`:
zero out the array over every grounded section's slice in turn. -/
def zeroGrounded (arr : List (ℚ × Bool)) (grounded : List Section) : List (ℚ × Bool) :=
  grounded.foldl (fun a s => zeroSection a s.slice) arr

/-- Modelled from the spec: `repair_mask` (analysis_engine.library, external
to this repository) repairs invalid/masked samples before accumulation —
"interpolated or zero-filled per policy"; we embed the zero-fill policy, and
valid samples are passed through unchanged.  The output carries no mask. -/
def repair_mask (arr : List (ℚ × Bool)) : List ℚ :=
  arr.map (fun p => if p.2 then 0 else p.1)

/-- Tail of the cumulative trapezoidal integral: `prev` is the previous
sample, `acc` the accumulated integral up to it. -/
def integrateAux (freq scale : ℚ) : ℚ → ℚ → List ℚ → List ℚ
  | _, _, [] => []
  | prev, acc, x :: t =>
      (acc + (prev + x) / 2 * scale / freq) ::
        integrateAux freq scale x (acc + (prev + x) / 2 * scale / freq) t

/-- Modelled from the spec: `integrate` (analysis_engine.library, external to
this repository) is the cumulative trapezoidal integral of a sampled series:
output sample 0 is 0 and output sample i+1 adds
`(x i + x (i+1)) / 2 * scale / frequency`. -/
def integrate (xs : List ℚ) (frequency scale : ℚ) : List ℚ :=
  match xs with
  | [] => []
  | x :: t => 0 :: integrateAux frequency scale x 0 t

namespace example_profile

/-- `DistanceTravelledInAir.derive` (example_profile.py): zero the airspeed
copy over every Grounded section, repair the mask, then integrate at
`scale = 1.0/3600.0`. -/
def DistanceTravelledInAir.derive (airspeed : List (ℚ × Bool)) (frequency : ℚ)
    (grounded : List Section) : List ℚ :=
  integrate (repair_mask (zeroGrounded airspeed grounded)) frequency (1 / 3600)

/-- Modelled from the spec: the engine hands the node its own copy of the
upstream airspeed array (source comment: "this is already a copy"), so the
in-place zeroing applies to the copy and the upstream store entry observed
after `derive` returns is the unchanged `upstream`.  The pair is
(node result, upstream array after the call). -/
def DistanceTravelledInAir.run (upstream : List (ℚ × Bool)) (frequency : ℚ)
    (grounded : List Section) : List ℚ × List (ℚ × Bool) :=
  (DistanceTravelledInAir.derive upstream frequency grounded, upstream)

end example_profile

/-- Two masked arrays agree except possibly in the data hidden under masked
(invalid) samples: same length, same mask at every position, and equal data
wherever the mask is clear. -/
def agreesOnValid (a b : List (ℚ × Bool)) : Prop :=
  a.length = b.length ∧
  ∀ i, (a.get? i).map Prod.snd = (b.get? i).map Prod.snd ∧
    ∀ v : ℚ, a.get? i = some (v, false) → b.get? i = some (v, false)

/-- Rewrite one sample: Down Advisory Corrective becomes Up Advisory
Corrective, anything else is kept. -/
def mergeOne (s : String) : String :=
  if s = "Down Advisory Corrective" then "Up Advisory Corrective" else s

/-- `np.ma.where(tcas.array == 'Down Advisory Corrective')` followed by
`tcas.array[dn_idx] = 'Up Advisory Corrective'`: every Down Advisory
Corrective sample is rewritten in place to Up Advisory Corrective. -/
def mergeAdvisories (tcas : List String) : List String :=
  tcas.map mergeOne

/-- Sample index `i` falls within (at least one of) the restricting sections. -/
def inAnyPhase (phases : List Section) (i : Nat) : Bool :=
  phases.any (fun s => decide (s.slice.1 ≤ i) && decide (i < s.slice.2))

/-- Modelled from the spec: `create_ktis_on_state_change` (engine node
method, external to this repository) emits one instant per qualifying
transition into the target state — a sample equal to the target whose
preceding sample differs — restricted to sample indices that fall within the
restricting interval; no transition is observable at sample 0 (no preceding
sample). -/
def create_ktis_on_state_change (target : String) (arr : List String)
    (phases : List Section) : List Nat :=
  (List.range arr.length).filter (fun i =>
    decide (1 ≤ i) && inAnyPhase phases i &&
    (arr.get? i == some target) && !(arr.get? (i - 1) == some target))

namespace example_profile

/-- `TCASRAStart.derive` (example_profile.py): rewrite Down Advisory
Corrective samples of the tcas dependency's array to Up Advisory Corrective
in place, then scan for entries into Up Advisory Corrective during the
Airborne sections.  The pair is (emitted KTI indices, the tcas array after
the call — mutated in place, so it is the merged array). -/
def TCASRAStart.derive (tcas : List String) (air : List Section) :
    List Nat × List String :=
  (create_ktis_on_state_change "Up Advisory Corrective" (mergeAdvisories tcas) air,
   mergeAdvisories tcas)

end example_profile

namespace parallel_profile

/-- `TCASRAStart.derive` (parallel_profile.py): two scans, one for entries
into Up Advisory Corrective and one for entries into Down Advisory
Corrective, both during the Airborne sections; the tcas array is not
mutated. -/
def TCASRAStart.derive (tcas : List String) (air : List Section) :
    List Nat × List String :=
  (create_ktis_on_state_change "Up Advisory Corrective" tcas air ++
     create_ktis_on_state_change "Down Advisory Corrective" tcas air,
   tcas)

end parallel_profile

/-- `needle` is an initial run of `hay`. -/
def takesLead : List Char → List Char → Bool
  | [], _ => true
  | _ :: _, [] => false
  | a :: t, b :: u => a == b && takesLead t u

/-- The file name matches the recording-file glob pattern `*.hdf5`: it ends
with the extension `.hdf5`. -/
def isHdf5 (f : String) : Bool :=
  takesLead ".hdf5".data.reverse f.data.reverse

/-- Python dict assignment `d[k] = v` on an insertion-ordered dictionary
embedded as an association list: overwrite in place when the key is present,
else append. -/
def dictSet (d : List (String × List Nat)) (k : String) (v : List Nat) :
    List (String × List Nat) :=
  if d.any (fun p => p.1 == k) then
    d.map (fun p => if p.1 == k then (k, v) else p)
  else d ++ [(k, v)]

namespace example_profile

/-- `SimpleAttribute.derive`: `self.set_flight_attr('Keith')`.  The pair is
(attribute value, the dependency after the call — unchanged). -/
def SimpleAttribute.run (start_datetime : String) : String × String :=
  ("Keith", start_datetime)

/-- `FileAttribute.derive`: `self.set_flight_attr(filename.value)`. -/
def FileAttribute.run (filename : String) : String × String :=
  (filename, filename)

/-- `MydictAttribute.derive`: `mydict.value['testkey'] = [1,2,3]` (an
in-place mutation of the dependency) then `set_flight_attr(mydict.value)`.
The pair is (attribute value, the dict after the call). -/
def MydictAttribute.run (mydict : List (String × List Nat)) :
    List (String × List Nat) × List (String × List Nat) :=
  (dictSet mydict "testkey" [1, 2, 3], dictSet mydict "testkey" [1, 2, 3])

/-- `SimpleKTI.derive`: `self.create_kti(3)`. -/
def SimpleKTI.run (start_datetime : String) : List ℚ × String :=
  ([3], start_datetime)

/-- `SimplerKTI.derive`: append `KeyTimeInstance(index=700., name='My Simpler KTI')`. -/
def SimplerKTI.run (start_datetime : String) : List (ℚ × String) × String :=
  ([(700, "My Simpler KTI")], start_datetime)

/-- `SimpleKPV.derive`: `self.create_kpv(3.0, 999.9)`. -/
def SimpleKPV.run (start_datetime : String) : List (ℚ × ℚ) × String :=
  ([(3, 9999 / 10)], start_datetime)

/-- `SimplerKPV.derive`: append two `KeyPointValue(index=42.5, value=666.6)`
records under two names. -/
def SimplerKPV.run (start_datetime : String) : List (ℚ × ℚ × String) × String :=
  ([(85 / 2, 3333 / 5, "My Simpler KPV"), (85 / 2, 3333 / 5, "My Simpler KPV 2")],
   start_datetime)

/-- Modelled from the spec: the external Oracle retrieval
`fds_oracle.flight_record_filepaths(query)` is abstracted by the ordered
file-path list `retrieved` it returns; the query text of `test_sql_jfk`
applies no row cap of its own (its rownum filter is commented out in the
source), and the caller caps the retrieved list with `[:40]`. -/
def test_sql_jfk (retrieved : List String) : String × List String :=
  ("central", retrieved.take 40)

/-- Modelled from the spec: as for `test_sql_jfk`, the retrieval of
`test_kpv_range` is abstracted by its returned ordered list, capped by the
caller with `[:40]`. -/
def test_kpv_range (retrieved : List String) : String × List String :=
  ("linux", retrieved.take 40)

/-- Modelled from the spec: `glob.glob(os.path.join(input_dir, '*.hdf5'))`
(external filesystem access) is embedded as filtering the configured
directory's `listing` (the file names present in
`BASE_DATA_PATH + 'tiny_test/'`) for the recording-file extension and
prefixing each matching name with the directory path. -/
def tiny_test (base_data_path : String) (listing : List String) :
    String × List String :=
  ("linux",
   (listing.filter (fun f => isHdf5 f)).map
     (fun f => (base_data_path ++ "tiny_test/") ++ f))

/-- `InitialApproach.derive` wrapped with its (unmutated) dependency state:
the pair is (created phases, the dependency lists after the call). -/
def InitialApproach.run (approach final : List Section) :
    List (ℚ × ℚ) × (List Section × List Section) :=
  (InitialApproach.derive approach final, (approach, final))

end example_profile

/-- Per-series metadata held by the hdf5 container for one series name:
recorded flag `lfl`, `frequency`, `data_type`, `units` (None embeds a
missing unit), whether the stored object is exactly a
MultistateDerivedParameterNode, and its `values_mapping`. -/
structure SeriesInfo where
  lfl : Bool
  frequency : ℚ
  data_type : String
  units : Option String
  isMultistate : Bool
  values_mapping : List (Nat × String)
deriving DecidableEq

/-- Upper-case a string's characters (`k.upper()`). -/
def upperChars (s : String) : List Char := s.data.map Char.toUpper

/-- `hay.find(needle) >= 0`: the needle occurs somewhere in the hay. -/
def hasSub : List Char → List Char → Bool
  | [], needle => needle.isEmpty
  | c :: t, needle => takesLead needle (c :: t) || hasSub t needle

/-- `k.upper().find(search_term.upper()) >= 0`: case-insensitive substring
match. -/
def matchesCI (name term : String) : Bool :=
  hasSub (upperChars name) (upperChars term)

namespace notebook_utils

/-- `myhdf5.get(nm)`: look a series up by name in the container (embedded
as an association list in container iteration order). -/
def hget (myhdf5 : List (String × SeriesInfo)) (nm : String) : Option SeriesInfo :=
  (myhdf5.find? (fun p => p.1 == nm)).map Prod.snd

/-- One row of the `hdf_search` result table.  `values = some m` is the
state-code-to-label mapping column; `values = none` embeds the literal
not-applicable cell written for non-multistate series. -/
structure HdfRow where
  name : String
  recorded : Char
  frequency : ℚ
  data_type : String
  units : String
  values : Option (List (Nat × String))
deriving DecidableEq

/-- The row `hdf_search` builds for one matching name: recorded flag
rendered as the character T or F, frequency, data type, units with a falsy
unit rendered as the empty string, and the values mapping for exactly
multistate series only. -/
def mkRow (nm : String) (info : SeriesInfo) : HdfRow :=
  { name := nm
    recorded := if info.lfl then 'T' else 'F'
    frequency := info.frequency
    data_type := info.data_type
    units := info.units.getD ""
    values := if info.isMultistate then some info.values_mapping else none }

/-- `hdf_search` (notebook_utils.py): filter the container's keys by
case-insensitive substring match against the search term, then build one
table row per matching name from the container's entry for that name. -/
def hdf_search (myhdf5 : List (String × SeriesInfo)) (search_term : String) :
    List HdfRow :=
  ((myhdf5.map Prod.fst).filter (fun k => matchesCI k search_term)).filterMap
    (fun nm => (hget myhdf5 nm).map (mkRow nm))

/-- `show_graph` (notebook_utils.py): set the figure size to (16, 12), run
the layout-and-draw call inside `try:`, swallow any exception it raises with
a bare `except:` that only prints a message, then reset the figure size to
(10, 4).  The fallible drawing call is embedded as an `Except`-valued
argument; the result is `Except.ok` of (final figure size, printed lines) —
an `Except.error` result would embed a propagated exception. -/
def show_graph (draw : Nat × Nat → Except String Unit) :
    Except String ((Nat × Nat) × List String) :=
  match draw (16, 12) with
  | Except.ok _ => Except.ok ((10, 4), [])
  | Except.error _ => Except.ok ((10, 4), ["hmm, apparently bogus exception"])

end notebook_utils

/-- A concrete two-series container used to exercise `hdf_search`. -/
def hdfExample : List (String × SeriesInfo) :=
  [("Airspeed", ⟨true, 8, "float", some "kt", false, []⟩),
   ("Flap Lever", ⟨false, 1, "int", none, true, [(0, "Up"), (1, "Down")]⟩)]

lemma foldl_min_mem : ∀ (t : List ℚ) (x : ℚ), t.foldl min x ∈ x :: t := by
  intro t
  induction t with
  | nil => intro x; simp
  | cons y u ih =>
      intro x
      have h := ih (min x y)
      simp only [List.foldl_cons]
      rcases List.mem_cons.mp h with h1 | h2
      · rw [h1]
        rcases le_total x y with hxy | hyx
        · rw [min_eq_left hxy]; exact List.mem_cons_self _ _
        · rw [min_eq_right hyx]
          exact List.mem_cons.mpr (Or.inr (List.mem_cons_self _ _))
      · exact List.mem_cons.mpr (Or.inr (List.mem_cons.mpr (Or.inr h2)))

lemma foldl_min_le : ∀ (t : List ℚ) (x : ℚ), ∀ e ∈ x :: t, t.foldl min x ≤ e := by
  intro t
  induction t with
  | nil => intro x e he; simp at he; simp [he]
  | cons y u ih =>
      intro x e he
      rcases List.mem_cons.mp he with h1 | h2
      · calc (y :: u).foldl min x = u.foldl min (min x y) := by simp [List.foldl_cons]
          _ ≤ min x y := ih (min x y) (min x y) (List.mem_cons_self _ _)
          _ ≤ x := min_le_left _ _
          _ = e := h1.symm
      · rcases List.mem_cons.mp h2 with h3 | h4
        · calc (y :: u).foldl min x = u.foldl min (min x y) := by simp [List.foldl_cons]
            _ ≤ min x y := ih (min x y) (min x y) (List.mem_cons_self _ _)
            _ ≤ y := min_le_right _ _
            _ = e := h3.symm
        · exact ih (min x y) e (List.mem_cons.mpr (Or.inr h4))

lemma pyMin_mem (x : ℚ) (t : List ℚ) : pyMin (x :: t) ∈ x :: t :=
  foldl_min_mem t x

lemma pyMin_le (x : ℚ) (t : List ℚ) : ∀ e ∈ x :: t, pyMin (x :: t) ≤ e :=
  foldl_min_le t x

/-- C1: for non-empty Approach and Final Approach lists, `InitialApproach.derive`
creates exactly one phase whose bounds are the minimum of the unclipped
`start_edge` fields over each list (a genuine minimum: a member of, and a
lower bound for, the start edges, regardless of the clipped slice bounds);
if either list is empty, no phase is created. -/
theorem C1_initialApproach_bounds (approach final : List Section) :
    ((approach ≠ [] ∧ final ≠ []) →
      example_profile.InitialApproach.derive approach final =
        [(pyMin (approach.map Section.start_edge), pyMin (final.map Section.start_edge))] ∧
      pyMin (approach.map Section.start_edge) ∈ approach.map Section.start_edge ∧
      (∀ e ∈ approach.map Section.start_edge, pyMin (approach.map Section.start_edge) ≤ e) ∧
      pyMin (final.map Section.start_edge) ∈ final.map Section.start_edge ∧
      (∀ e ∈ final.map Section.start_edge, pyMin (final.map Section.start_edge) ≤ e)) ∧
    ((approach = [] ∨ final = []) →
      example_profile.InitialApproach.derive approach final = []) := by
  constructor
  · rintro ⟨ha, hf⟩
    have hla : 0 < approach.length := List.length_pos.mpr ha
    have hlf : 0 < final.length := List.length_pos.mpr hf
    refine ⟨?_, ?_, ?_, ?_, ?_⟩
    · simp [example_profile.InitialApproach.derive, hla, hlf]
    · cases approach with
      | nil => exact absurd rfl ha
      | cons a t => simpa using pyMin_mem a.start_edge (t.map Section.start_edge)
    · cases approach with
      | nil => exact absurd rfl ha
      | cons a t =>
          intro e he
          exact pyMin_le a.start_edge (t.map Section.start_edge) e (by simpa using he)
    · cases final with
      | nil => exact absurd rfl hf
      | cons a t => simpa using pyMin_mem a.start_edge (t.map Section.start_edge)
    · cases final with
      | nil => exact absurd rfl hf
      | cons a t =>
          intro e he
          exact pyMin_le a.start_edge (t.map Section.start_edge) e (by simpa using he)
  · intro h
    rcases h with h | h <;> simp [example_profile.InitialApproach.derive, h]

/-- C1 witness: concrete non-empty inputs produce the single phase with the
minimum start edges, and an empty Approach list produces no phase. -/
theorem C1_initialApproach_bounds_witness :
    example_profile.InitialApproach.derive
        [⟨"Approach", (10, 40), 12, 40⟩, ⟨"Approach", (5, 9), 4, 9⟩]
        [⟨"Final Approach", (30, 40), 30, 40⟩] = [((4 : ℚ), (30 : ℚ))] ∧
    example_profile.InitialApproach.derive [] [⟨"Final Approach", (30, 40), 30, 40⟩] = [] := by
  constructor
  · have h := (C1_initialApproach_bounds
      [⟨"Approach", (10, 40), 12, 40⟩, ⟨"Approach", (5, 9), 4, 9⟩]
      [⟨"Final Approach", (30, 40), 30, 40⟩]).1 (by constructor <;> decide)
    have hd := h.1
    simpa using hd
  · exact (C1_initialApproach_bounds [] [⟨"Final Approach", (30, 40), 30, 40⟩]).2 (Or.inl rfl)

lemma zeroSectionAux_length (lo hi : Nat) :
    ∀ (t : List (ℚ × Bool)) (j : Nat), (zeroSectionAux lo hi j t).length = t.length := by
  intro t
  induction t with
  | nil => intro j; simp [zeroSectionAux]
  | cons v u ih => intro j; simp [zeroSectionAux, ih (j + 1)]

lemma zeroSectionAux_get? (lo hi : Nat) :
    ∀ (t : List (ℚ × Bool)) (j i : Nat),
      (zeroSectionAux lo hi j t).get? i =
        (t.get? i).map (fun v => if lo ≤ j + i ∧ j + i < hi then ((0 : ℚ), false) else v) := by
  intro t
  induction t with
  | nil => intro j i; simp [zeroSectionAux]
  | cons v u ih =>
      intro j i
      cases i with
      | zero => simp [zeroSectionAux]
      | succ k =>
          have h := ih (j + 1) k
          have harith : j + 1 + k = j + (k + 1) := by omega
          rw [harith] at h
          simpa [zeroSectionAux] using h

lemma zeroSection_length (arr : List (ℚ × Bool)) (sl : Nat × Nat) :
    (zeroSection arr sl).length = arr.length :=
  zeroSectionAux_length sl.1 sl.2 arr 0

lemma zeroSection_get?_in (arr : List (ℚ × Bool)) (sl : Nat × Nat) (i : Nat)
    (h1 : sl.1 ≤ i) (h2 : i < sl.2) (h3 : i < arr.length) :
    (zeroSection arr sl).get? i = some (0, false) := by
  have hv : ∃ v, arr.get? i = some v := by
    rw [List.get?_eq_get h3]; exact ⟨_, rfl⟩
  obtain ⟨v, hv⟩ := hv
  rw [zeroSection, zeroSectionAux_get?, hv]
  simp [h1, h2]

lemma zeroSection_get?_out (arr : List (ℚ × Bool)) (sl : Nat × Nat) (i : Nat)
    (h : ¬(sl.1 ≤ i ∧ i < sl.2)) :
    (zeroSection arr sl).get? i = arr.get? i := by
  rw [zeroSection, zeroSectionAux_get?]
  cases harr : arr.get? i <;> simp [h]

lemma zeroSection_preserves_zero (arr : List (ℚ × Bool)) (sl : Nat × Nat) (i : Nat)
    (h : arr.get? i = some (0, false)) :
    (zeroSection arr sl).get? i = some (0, false) := by
  by_cases hc : sl.1 ≤ i ∧ i < sl.2
  · have h3 : i < arr.length := by
      rcases List.get?_eq_some.mp h with ⟨hlt, _⟩
      exact hlt
    exact zeroSection_get?_in arr sl i hc.1 hc.2 h3
  · rw [zeroSection_get?_out arr sl i hc]; exact h

lemma zeroGrounded_length : ∀ (g : List Section) (arr : List (ℚ × Bool)),
    (zeroGrounded arr g).length = arr.length := by
  intro g
  induction g with
  | nil => intro arr; simp [zeroGrounded]
  | cons s t ih =>
      intro arr
      have h := ih (zeroSection arr s.slice)
      simp only [zeroGrounded, List.foldl_cons] at h ⊢
      rw [h, zeroSection_length]

lemma zeroGrounded_preserves_zero : ∀ (g : List Section) (arr : List (ℚ × Bool)) (i : Nat),
    arr.get? i = some (0, false) → (zeroGrounded arr g).get? i = some (0, false) := by
  intro g
  induction g with
  | nil => intro arr i h; simpa [zeroGrounded] using h
  | cons s t ih =>
      intro arr i h
      have h1 := zeroSection_preserves_zero arr s.slice i h
      have h2 := ih (zeroSection arr s.slice) i h1
      simpa [zeroGrounded, List.foldl_cons] using h2

lemma zeroGrounded_get?_in : ∀ (g : List Section) (arr : List (ℚ × Bool)) (s : Section),
    s ∈ g → ∀ i : Nat, s.slice.1 ≤ i → i < s.slice.2 → i < arr.length →
    (zeroGrounded arr g).get? i = some (0, false) := by
  intro g
  induction g with
  | nil => intro arr s hs; exact absurd hs (List.not_mem_nil s)
  | cons a t ih =>
      intro arr s hs i h1 h2 h3
      rcases List.mem_cons.mp hs with heq | hmem
      · subst heq
        have hz := zeroSection_get?_in arr s.slice i h1 h2 h3
        have := zeroGrounded_preserves_zero t (zeroSection arr s.slice) i hz
        simpa [zeroGrounded, List.foldl_cons] using this
      · have h3' : i < (zeroSection arr a.slice).length := by
          rw [zeroSection_length]; exact h3
        have := ih (zeroSection arr a.slice) s hmem i h1 h2 h3'
        simpa [zeroGrounded, List.foldl_cons] using this

lemma integrateAux_get?_succ (freq scale : ℚ) :
    ∀ (t : List ℚ) (prev acc : ℚ) (i : Nat) (a b : ℚ),
      (prev :: t).get? i = some a → (prev :: t).get? (i + 1) = some b →
      ∃ c, (acc :: integrateAux freq scale prev acc t).get? i = some c ∧
        (acc :: integrateAux freq scale prev acc t).get? (i + 1) =
          some (c + (a + b) / 2 * scale / freq) := by
  intro t
  induction t with
  | nil =>
      intro prev acc i a b ha hb
      simp [List.get?] at hb
  | cons y u ih =>
      intro prev acc i a b ha hb
      cases i with
      | zero =>
          have ha' : prev = a := by simpa using ha
          have hb' : y = b := by simpa using hb
          subst ha'
          subst hb'
          exact ⟨acc, by simp, by simp [integrateAux]⟩
      | succ k =>
          have ha' : (y :: u).get? k = some a := by simpa using ha
          have hb' : (y :: u).get? (k + 1) = some b := by simpa using hb
          obtain ⟨c, hc1, hc2⟩ :=
            ih y (acc + (prev + y) / 2 * scale / freq) k a b ha' hb'
          refine ⟨c, ?_, ?_⟩
          · simpa [integrateAux] using hc1
          · simpa [integrateAux] using hc2

lemma integrate_get?_succ (xs : List ℚ) (freq scale : ℚ) (i : Nat) (a b : ℚ)
    (ha : xs.get? i = some a) (hb : xs.get? (i + 1) = some b) :
    ∃ c, (integrate xs freq scale).get? i = some c ∧
      (integrate xs freq scale).get? (i + 1) = some (c + (a + b) / 2 * scale / freq) := by
  cases xs with
  | nil => simp at ha
  | cons x t => exact integrateAux_get?_succ freq scale t x 0 i a b ha hb

lemma repair_mask_get? (arr : List (ℚ × Bool)) (i : Nat) :
    (repair_mask arr).get? i = (arr.get? i).map (fun p => if p.2 then 0 else p.1) := by
  simp [repair_mask, List.get?_map]

lemma agrees_zeroSection (a b : List (ℚ × Bool)) (sl : Nat × Nat)
    (h : agreesOnValid a b) : agreesOnValid (zeroSection a sl) (zeroSection b sl) := by
  obtain ⟨hlen, hp⟩ := h
  refine ⟨by rw [zeroSection_length, zeroSection_length, hlen], ?_⟩
  intro i
  by_cases hc : sl.1 ≤ i ∧ i < sl.2
  · by_cases hlt : i < a.length
    · have hA := zeroSection_get?_in a sl i hc.1 hc.2 hlt
      have hB := zeroSection_get?_in b sl i hc.1 hc.2 (hlen ▸ hlt)
      refine ⟨by rw [hA, hB], ?_⟩
      intro v hv
      rw [hA] at hv
      have : v = 0 := by
        have := Option.some.inj hv
        exact (Prod.mk.injEq _ _ _ _ ▸ this).1.symm
      rw [this, hB]
    · have hA : (zeroSection a sl).get? i = none := by
        rw [List.get?_eq_none, zeroSection_length]; omega
      have hB : (zeroSection b sl).get? i = none := by
        rw [List.get?_eq_none, zeroSection_length]; omega
      exact ⟨by rw [hA, hB], fun v hv => by rw [hA] at hv; exact absurd hv (by simp)⟩
  · rw [zeroSection_get?_out a sl i hc, zeroSection_get?_out b sl i hc]
    exact hp i

lemma agrees_zeroGrounded : ∀ (g : List Section) (a b : List (ℚ × Bool)),
    agreesOnValid a b → agreesOnValid (zeroGrounded a g) (zeroGrounded b g) := by
  intro g
  induction g with
  | nil => intro a b h; simpa [zeroGrounded] using h
  | cons s t ih =>
      intro a b h
      have := ih (zeroSection a s.slice) (zeroSection b s.slice)
        (agrees_zeroSection a b s.slice h)
      simpa [zeroGrounded, List.foldl_cons] using this

lemma repair_mask_eq_of_agrees (a b : List (ℚ × Bool)) (h : agreesOnValid a b) :
    repair_mask a = repair_mask b := by
  obtain ⟨hlen, hp⟩ := h
  apply List.ext
  intro n
  rw [repair_mask_get?, repair_mask_get?]
  obtain ⟨h1, h2⟩ := hp n
  cases hA : a.get? n with
  | none =>
      have : b.get? n = none := by
        rw [List.get?_eq_none] at hA ⊢; omega
      rw [this]
  | some p =>
      obtain ⟨v, m⟩ := p
      cases hB : b.get? n with
      | none => rw [hA, hB] at h1; simp at h1
      | some q =>
          rw [hA, hB] at h1
          simp only [Option.map_some'] at h1
          have hm : m = q.2 := by simpa using h1
          cases m with
          | false =>
              have := h2 v hA
              rw [this] at hB
              have : q = (v, false) := by
                have := Option.some.inj hB
                exact this.symm
              simp [this]
          | true =>
              obtain ⟨w, m2⟩ := q
              simp at hm
              simp [hm.symm]


/-- C2: for every airspeed series and Grounded section list,
`DistanceTravelledInAir.derive` integrates with exactly zero contribution
between any two consecutive samples inside a grounded section's slice, and
invalid (masked) samples are repaired before integration: the output does
not depend on the data hidden under masked samples. -/
theorem C2_distance_grounded_zero (airspeed : List (ℚ × Bool)) (freq : ℚ)
    (grounded : List Section) :
    (∀ s ∈ grounded, ∀ i : Nat, s.slice.1 ≤ i → i + 1 < s.slice.2 →
      i + 1 < airspeed.length →
      (example_profile.DistanceTravelledInAir.derive airspeed freq grounded).get? (i + 1) =
        (example_profile.DistanceTravelledInAir.derive airspeed freq grounded).get? i) ∧
    (∀ airspeed2, agreesOnValid airspeed airspeed2 →
      example_profile.DistanceTravelledInAir.derive airspeed2 freq grounded =
        example_profile.DistanceTravelledInAir.derive airspeed freq grounded) := by
  constructor
  · intro s hs i h1 h2 hlen
    have hz1 : (zeroGrounded airspeed grounded).get? i = some (0, false) :=
      zeroGrounded_get?_in grounded airspeed s hs i h1 (by omega) (by omega)
    have hz2 : (zeroGrounded airspeed grounded).get? (i + 1) = some (0, false) :=
      zeroGrounded_get?_in grounded airspeed s hs (i + 1) (by omega) h2 hlen
    have hr1 : (repair_mask (zeroGrounded airspeed grounded)).get? i = some 0 := by
      rw [repair_mask_get?, hz1]; simp
    have hr2 : (repair_mask (zeroGrounded airspeed grounded)).get? (i + 1) = some 0 := by
      rw [repair_mask_get?, hz2]; simp
    obtain ⟨c, hc1, hc2⟩ :=
      integrate_get?_succ (repair_mask (zeroGrounded airspeed grounded)) freq (1 / 3600)
        i 0 0 hr1 hr2
    simp only [example_profile.DistanceTravelledInAir.derive]
    rw [hc1, hc2]
    norm_num
  · intro a2 ha
    simp only [example_profile.DistanceTravelledInAir.derive]
    rw [repair_mask_eq_of_agrees (zeroGrounded airspeed grounded) (zeroGrounded a2 grounded)
      (agrees_zeroGrounded grounded airspeed a2 ha)]

/-- C2 witness: on a concrete airspeed series with a grounded slice covering
samples 0 and 1, the integrated output is flat across that slice. -/
theorem C2_distance_grounded_zero_witness :
    (example_profile.DistanceTravelledInAir.derive
        [((10 : ℚ), false), ((20 : ℚ), false), ((30 : ℚ), false)] 1
        [⟨"Grounded", (0, 2), 0, 2⟩]).get? (0 + 1) =
      (example_profile.DistanceTravelledInAir.derive
        [((10 : ℚ), false), ((20 : ℚ), false), ((30 : ℚ), false)] 1
        [⟨"Grounded", (0, 2), 0, 2⟩]).get? 0 :=
  (C2_distance_grounded_zero
      [((10 : ℚ), false), ((20 : ℚ), false), ((30 : ℚ), false)] 1
      [⟨"Grounded", (0, 2), 0, 2⟩]).1
    ⟨"Grounded", (0, 2), 0, 2⟩ (by decide) 0 (by decide) (by decide) (by decide)

/-- C4: `DistanceTravelledInAir.derive` zeroes only the node's own copy of
the airspeed array: the upstream series observed after the call is the
unchanged input, while the copy the node integrates really is zeroed (an
unmasked zero) at every sample of every Grounded slice. -/
theorem C4_distance_upstream_unchanged (upstream : List (ℚ × Bool)) (freq : ℚ)
    (grounded : List Section) :
    (example_profile.DistanceTravelledInAir.run upstream freq grounded).2 = upstream ∧
    (∀ s ∈ grounded, ∀ i : Nat, s.slice.1 ≤ i → i < s.slice.2 → i < upstream.length →
      (zeroGrounded upstream grounded).get? i = some (0, false)) :=
  ⟨rfl, fun s hs i h1 h2 h3 => zeroGrounded_get?_in grounded upstream s hs i h1 h2 h3⟩

/-- C4 witness: with a nonzero upstream sample covered by a grounded slice,
the node's copy holds an unmasked zero there while the upstream array after
the call is the unchanged input. -/
theorem C4_distance_upstream_unchanged_witness :
    (example_profile.DistanceTravelledInAir.run [((5 : ℚ), false)] 1
        [⟨"Grounded", (0, 1), 0, 1⟩]).2 = [((5 : ℚ), false)] ∧
    (zeroGrounded [((5 : ℚ), false)] [⟨"Grounded", (0, 1), 0, 1⟩]).get? 0 =
      some (0, false) :=
  ⟨(C4_distance_upstream_unchanged [((5 : ℚ), false)] 1 [⟨"Grounded", (0, 1), 0, 1⟩]).1,
   (C4_distance_upstream_unchanged [((5 : ℚ), false)] 1 [⟨"Grounded", (0, 1), 0, 1⟩]).2
     ⟨"Grounded", (0, 1), 0, 1⟩ (by decide) 0 (by decide) (by decide) (by decide)⟩

lemma mergeAdvisories_length (tcas : List String) :
    (mergeAdvisories tcas).length = tcas.length := by
  simp [mergeAdvisories]

lemma mem_create_ktis (target : String) (arr : List String) (phases : List Section)
    (i : Nat) :
    i ∈ create_ktis_on_state_change target arr phases ↔
      (1 ≤ i ∧ i < arr.length ∧ inAnyPhase phases i = true ∧
        arr.get? i = some target ∧ arr.get? (i - 1) ≠ some target) := by
  simp only [create_ktis_on_state_change, List.mem_filter, List.mem_range,
    Bool.and_eq_true, decide_eq_true_eq, beq_iff_eq, Bool.not_eq_true',
    beq_eq_false_iff_ne]
  tauto

lemma nodup_create_ktis (target : String) (arr : List String) (phases : List Section) :
    (create_ktis_on_state_change target arr phases).Nodup :=
  List.Nodup.filter _ (List.nodup_range _)

/-- C3: `TCASRAStart.derive` emits exactly one key time instant per
transition into the target advisory state (on the in-place merged array, Up
Advisory Corrective) whose sample index falls within an Airborne section,
and emits no instant at an index outside the Airborne sections: membership
characterises the emitted indices and the emitted list has no duplicates. -/
theorem C3_tcas_ra_start_instants (tcas : List String) (air : List Section) :
    (∀ i : Nat,
      i ∈ (example_profile.TCASRAStart.derive tcas air).1 ↔
        (1 ≤ i ∧ i < tcas.length ∧ inAnyPhase air i = true ∧
          (mergeAdvisories tcas).get? i = some "Up Advisory Corrective" ∧
          (mergeAdvisories tcas).get? (i - 1) ≠ some "Up Advisory Corrective")) ∧
    (example_profile.TCASRAStart.derive tcas air).1.Nodup := by
  constructor
  · intro i
    have h := mem_create_ktis "Up Advisory Corrective" (mergeAdvisories tcas) air i
    rw [mergeAdvisories_length] at h
    exact h
  · exact nodup_create_ktis _ _ _

/-- C3 witness: a series entering the advisory state at sample 1 (inside the
Airborne slice [0, 4)) and at sample 5 (outside it) produces an instant at
index 1 and none at index 5. -/
theorem C3_tcas_ra_start_instants_witness :
    1 ∈ (example_profile.TCASRAStart.derive
        ["Clear", "Up Advisory Corrective", "Clear", "Clear", "Clear",
          "Up Advisory Corrective"]
        [⟨"Airborne", (0, 4), 0, 4⟩]).1 ∧
    5 ∉ (example_profile.TCASRAStart.derive
        ["Clear", "Up Advisory Corrective", "Clear", "Clear", "Clear",
          "Up Advisory Corrective"]
        [⟨"Airborne", (0, 4), 0, 4⟩]).1 := by
  have h := C3_tcas_ra_start_instants
    ["Clear", "Up Advisory Corrective", "Clear", "Clear", "Clear",
      "Up Advisory Corrective"]
    [⟨"Airborne", (0, 4), 0, 4⟩]
  constructor
  · exact (h.1 1).mpr (by decide)
  · intro hmem
    have hc := (h.1 5).mp hmem
    exact absurd hc.2.2.1 (by decide)

/-- C10: when some sample of the TCAS Combined Control dependency is Down
Advisory Corrective, `TCASRAStart.derive` in example_profile mutates the
dependency's array in place: the array observed after the call differs from
the supplied one, every Down Advisory Corrective sample having been
rewritten to Up Advisory Corrective. -/
theorem C10_tcas_mutates_dependency (tcas : List String) (air : List Section)
    (h : "Down Advisory Corrective" ∈ tcas) :
    (example_profile.TCASRAStart.derive tcas air).2 ≠ tcas ∧
    ∀ i : Nat, tcas.get? i = some "Down Advisory Corrective" →
      ((example_profile.TCASRAStart.derive tcas air).2).get? i =
        some "Up Advisory Corrective" := by
  have harr : ∀ i : Nat, tcas.get? i = some "Down Advisory Corrective" →
      (mergeAdvisories tcas).get? i = some "Up Advisory Corrective" := by
    intro i hi
    rw [mergeAdvisories, List.get?_map, hi]
    simp [mergeOne]
  constructor
  · obtain ⟨n, hn⟩ := List.mem_iff_get?.mp h
    intro heq
    have h1 := harr n hn
    rw [show (example_profile.TCASRAStart.derive tcas air).2 = mergeAdvisories tcas
      from rfl] at heq
    rw [heq, hn] at h1
    exact absurd (Option.some.inj h1) (by decide)
  · intro i hi
    exact harr i hi

/-- C10 witness: a supplied array holding a Down Advisory Corrective sample
is observed changed after the call. -/
theorem C10_tcas_mutates_dependency_witness :
    (example_profile.TCASRAStart.derive
        ["Clear", "Down Advisory Corrective"] []).2 ≠
      ["Clear", "Down Advisory Corrective"] :=
  (C10_tcas_mutates_dependency ["Clear", "Down Advisory Corrective"] []
    (by decide)).1

lemma mergeOne_idem (a : String) : mergeOne (mergeOne a) = mergeOne a := by
  by_cases h : a = "Down Advisory Corrective"
  · rw [h]; decide
  · have h1 : mergeOne a = a := by rw [mergeOne, if_neg h]
    rw [h1]
    exact h1

lemma mergeAdvisories_idem (tcas : List String) :
    mergeAdvisories (mergeAdvisories tcas) = mergeAdvisories tcas := by
  simp only [mergeAdvisories, List.map_map]
  induction tcas with
  | nil => rfl
  | cons a t ih =>
      rw [List.map_cons, List.map_cons, ih]
      congr 1
      exact mergeOne_idem a

lemma dictSet_mem_key (d : List (String × List Nat)) (k : String) (v : List Nat) :
    (dictSet d k v).any (fun p => p.1 == k) = true := by
  rw [dictSet]
  by_cases h : d.any (fun p => p.1 == k)
  · rw [if_pos h]
    rcases List.any_eq_true.mp h with ⟨p, hp, hpk⟩
    apply List.any_eq_true.mpr
    refine ⟨if p.1 == k then (k, v) else p, List.mem_map_of_mem _ hp, ?_⟩
    rw [if_pos hpk]
    simp
  · rw [if_neg h]
    apply List.any_eq_true.mpr
    exact ⟨(k, v), by simp, by simp⟩

lemma mem_dictSet (d : List (String × List Nat)) (k : String) (v : List Nat)
    (p : String × List Nat) (hp : p ∈ dictSet d k v) :
    p = (k, v) ∨ (p.1 == k) = false := by
  rw [dictSet] at hp
  by_cases h : d.any (fun q => q.1 == k)
  · rw [if_pos h] at hp
    rcases List.mem_map.mp hp with ⟨q, hq, hgq⟩
    by_cases hqk : (q.1 == k) = true
    · left; rw [← hgq, if_pos hqk]
    · right
      rw [← hgq, if_neg hqk]
      exact Bool.eq_false_iff.mpr hqk
  · rw [if_neg h] at hp
    rcases List.mem_append.mp hp with hq | hq
    · right
      have hall : ∀ q ∈ d, ¬ ((fun q : String × List Nat => q.1 == k) q = true) := by
        intro q hqd hqk
        exact h (List.any_eq_true.mpr ⟨q, hqd, hqk⟩)
      exact Bool.eq_false_iff.mpr (hall p hq)
    · left; simpa using hq

lemma map_fix_dict (e : List (String × List Nat)) (k : String) (v : List Nat)
    (h : ∀ p ∈ e, (if p.1 == k then (k, v) else p) = p) :
    e.map (fun p => if p.1 == k then (k, v) else p) = e := by
  induction e with
  | nil => rfl
  | cons a t ih =>
      rw [List.map_cons, h a (List.mem_cons_self _ _),
        ih (fun p hp => h p (List.mem_cons_of_mem _ hp))]

lemma dictSet_idem (d : List (String × List Nat)) (k : String) (v : List Nat) :
    dictSet (dictSet d k v) k v = dictSet d k v := by
  have hmem := dictSet_mem_key d k v
  conv_lhs => rw [dictSet]
  rw [if_pos hmem]
  apply map_fix_dict
  intro p hp
  rcases mem_dictSet d k v p hp with h | h
  · rw [h]; simp
  · rw [if_neg (Bool.eq_false_iff.mp h)]

/-- C5: invoking each node's derive computation a second time, on the
dependency state left behind by the first invocation of the same resolved
inputs, yields the identical output record and dependency state: every
in-repo mutation (the dict write of MydictAttribute, the advisory merge of
TCASRAStart) is idempotent, and the remaining nodes leave their dependencies
unchanged. -/
theorem C5_derive_idempotent :
    (∀ s, example_profile.SimpleAttribute.run
        (example_profile.SimpleAttribute.run s).2 =
      example_profile.SimpleAttribute.run s) ∧
    (∀ s, example_profile.FileAttribute.run
        (example_profile.FileAttribute.run s).2 =
      example_profile.FileAttribute.run s) ∧
    (∀ d, example_profile.MydictAttribute.run
        (example_profile.MydictAttribute.run d).2 =
      example_profile.MydictAttribute.run d) ∧
    (∀ s, example_profile.SimpleKTI.run (example_profile.SimpleKTI.run s).2 =
      example_profile.SimpleKTI.run s) ∧
    (∀ s, example_profile.SimplerKTI.run (example_profile.SimplerKTI.run s).2 =
      example_profile.SimplerKTI.run s) ∧
    (∀ s, example_profile.SimpleKPV.run (example_profile.SimpleKPV.run s).2 =
      example_profile.SimpleKPV.run s) ∧
    (∀ s, example_profile.SimplerKPV.run (example_profile.SimplerKPV.run s).2 =
      example_profile.SimplerKPV.run s) ∧
    (∀ a f, example_profile.InitialApproach.run
        (example_profile.InitialApproach.run a f).2.1
        (example_profile.InitialApproach.run a f).2.2 =
      example_profile.InitialApproach.run a f) ∧
    (∀ tcas air, example_profile.TCASRAStart.derive
        (example_profile.TCASRAStart.derive tcas air).2 air =
      example_profile.TCASRAStart.derive tcas air) ∧
    (∀ tcas air, parallel_profile.TCASRAStart.derive
        (parallel_profile.TCASRAStart.derive tcas air).2 air =
      parallel_profile.TCASRAStart.derive tcas air) ∧
    (∀ upstream freq grounded, example_profile.DistanceTravelledInAir.run
        (example_profile.DistanceTravelledInAir.run upstream freq grounded).2
        freq grounded =
      example_profile.DistanceTravelledInAir.run upstream freq grounded) := by
  refine ⟨fun s => rfl, fun s => rfl, ?_, fun s => rfl, fun s => rfl, fun s => rfl,
    fun s => rfl, fun a f => rfl, ?_, fun tcas air => rfl, fun u f g => rfl⟩
  · intro d
    simp only [example_profile.MydictAttribute.run, dictSet_idem]
  · intro tcas air
    simp only [example_profile.TCASRAStart.derive, mergeAdvisories_idem]

/-- C6: the query-strategy selectors that cap their result (`test_sql_jfk`
and `test_kpv_range`) apply the cap of 40 after retrieval, and when the
uncapped retrieved sequence has more than 40 entries the returned list is
exactly its first 40 entries in their original order. -/
theorem C6_query_cap_after_retrieval (retrieved : List String)
    (h : 40 < retrieved.length) :
    (example_profile.test_sql_jfk retrieved).2 = retrieved.take 40 ∧
    (example_profile.test_sql_jfk retrieved).2.length = 40 ∧
    (∀ i : Nat, i < 40 →
      ((example_profile.test_sql_jfk retrieved).2).get? i = retrieved.get? i) ∧
    (example_profile.test_kpv_range retrieved).2 = retrieved.take 40 ∧
    (example_profile.test_kpv_range retrieved).2.length = 40 ∧
    (∀ i : Nat, i < 40 →
      ((example_profile.test_kpv_range retrieved).2).get? i = retrieved.get? i) := by
  refine ⟨rfl, ?_, ?_, rfl, ?_, ?_⟩
  · simp only [example_profile.test_sql_jfk, List.length_take]
    omega
  · intro i hi
    simp only [example_profile.test_sql_jfk]
    exact List.get?_take hi
  · simp only [example_profile.test_kpv_range, List.length_take]
    omega
  · intro i hi
    simp only [example_profile.test_kpv_range]
    exact List.get?_take hi

/-- C6 witness: a retrieved list of 41 entries is capped to its first 40. -/
theorem C6_query_cap_after_retrieval_witness :
    (example_profile.test_sql_jfk (List.replicate 41 "f")).2 =
      (List.replicate 41 "f").take 40 ∧
    (example_profile.test_sql_jfk (List.replicate 41 "f")).2.length = 40 :=
  ⟨(C6_query_cap_after_retrieval (List.replicate 41 "f") (by simp)).1,
   (C6_query_cap_after_retrieval (List.replicate 41 "f") (by simp)).2.1⟩

/-- C7: the filesystem-strategy selector `tiny_test`, over a configured
absolute base directory whose listing holds exactly n names with the
recording-file extension .hdf5 and m without it, returns the repository tag
together with exactly n file paths, each of them the configured directory
path followed by a matching file name — hence an absolute path under the
configured directory. -/
theorem C7_tiny_test_selector (base_data_path : String) (listing : List String)
    (n m : Nat)
    (hn : (listing.filter (fun f => isHdf5 f)).length = n)
    (hm : (listing.filter (fun f => !isHdf5 f)).length = m)
    (habs : ∃ t, base_data_path = "/" ++ t) :
    (example_profile.tiny_test base_data_path listing).1 = "linux" ∧
    (example_profile.tiny_test base_data_path listing).2.length = n ∧
    (∀ p ∈ (example_profile.tiny_test base_data_path listing).2,
      (∃ f, f ∈ listing ∧ isHdf5 f = true ∧
        p = (base_data_path ++ "tiny_test/") ++ f) ∧
      ∃ t, p = "/" ++ t) := by
  obtain ⟨t0, ht0⟩ := habs
  refine ⟨rfl, ?_, ?_⟩
  · simp only [example_profile.tiny_test, List.length_map]
    exact hn
  · intro p hp
    simp only [example_profile.tiny_test] at hp
    rcases List.mem_map.mp hp with ⟨f, hf, hpf⟩
    have hfm := List.mem_filter.mp hf
    refine ⟨⟨f, hfm.1, hfm.2, hpf.symm⟩, ⟨(t0 ++ "tiny_test/") ++ f, ?_⟩⟩
    rw [← hpf, ht0, String.append_assoc "/" t0 "tiny_test/",
      String.append_assoc "/" (t0 ++ "tiny_test/") f]

/-- C7 witness: a directory with two .hdf5 files and one other file yields
the tag and exactly two paths. -/
theorem C7_tiny_test_selector_witness :
    (example_profile.tiny_test "/data/" ["a.hdf5", "b.txt", "c.hdf5"]).1 = "linux" ∧
    (example_profile.tiny_test "/data/" ["a.hdf5", "b.txt", "c.hdf5"]).2.length = 2 :=
  ⟨(C7_tiny_test_selector "/data/" ["a.hdf5", "b.txt", "c.hdf5"] 2 1
      (by decide) (by decide) ⟨"data/", rfl⟩).1,
   (C7_tiny_test_selector "/data/" ["a.hdf5", "b.txt", "c.hdf5"] 2 1
      (by decide) (by decide) ⟨"data/", rfl⟩).2.1⟩

lemma hget_of_mem_keys (myhdf5 : List (String × SeriesInfo)) (nm : String)
    (h : nm ∈ myhdf5.map Prod.fst) :
    ∃ info, notebook_utils.hget myhdf5 nm = some info := by
  induction myhdf5 with
  | nil => simp at h
  | cons p t ih =>
      by_cases hp : (p.1 == nm) = true
      · refine ⟨p.2, ?_⟩
        rw [notebook_utils.hget, List.find?_cons_of_pos t hp]
        rfl
      · have hmem : nm ∈ t.map Prod.fst := by
          simp only [List.map_cons, List.mem_cons] at h
          rcases h with h | h
          · exact absurd (by rw [h]; exact beq_self_eq_true _) hp
          · exact h
        rcases ih hmem with ⟨info, hinfo⟩
        refine ⟨info, ?_⟩
        rw [notebook_utils.hget, List.find?_cons_of_neg t hp]
        exact hinfo

lemma filterMap_rows_names (myhdf5 : List (String × SeriesInfo)) :
    ∀ names : List String, (∀ nm ∈ names, nm ∈ myhdf5.map Prod.fst) →
      (names.filterMap
          (fun nm => (notebook_utils.hget myhdf5 nm).map (notebook_utils.mkRow nm))).map
        notebook_utils.HdfRow.name = names := by
  intro names
  induction names with
  | nil => intro _; rfl
  | cons nm t ih =>
      intro h
      rcases hget_of_mem_keys myhdf5 nm (h nm (List.mem_cons_self _ _)) with ⟨info, hinfo⟩
      rw [List.filterMap_cons, hinfo]
      simp only [Option.map_some']
      rw [List.map_cons, ih (fun x hx => h x (List.mem_cons_of_mem _ hx))]
      rfl

/-- C8: `hdf_search` returns a table whose rows are exactly the series whose
name contains the search string case-insensitively (in container order), and
each row carries the name, the recorded-vs-derived flag, the frequency, the
data type, the units, and the state-code-to-label mapping for exactly
multistate series only (the not-applicable cell for all other series). -/
theorem C8_hdf_search_table (myhdf5 : List (String × SeriesInfo)) (term : String) :
    ((notebook_utils.hdf_search myhdf5 term).map notebook_utils.HdfRow.name =
      (myhdf5.map Prod.fst).filter (fun k => matchesCI k term)) ∧
    ∀ row ∈ notebook_utils.hdf_search myhdf5 term, ∃ info : SeriesInfo,
      notebook_utils.hget myhdf5 row.name = some info ∧
      row.recorded = (if info.lfl then 'T' else 'F') ∧
      row.frequency = info.frequency ∧
      row.data_type = info.data_type ∧
      row.units = info.units.getD "" ∧
      row.values = (if info.isMultistate then some info.values_mapping else none) := by
  constructor
  · apply filterMap_rows_names
    intro nm hnm
    exact (List.mem_filter.mp hnm).1
  · intro row hrow
    simp only [notebook_utils.hdf_search, List.mem_filterMap] at hrow
    rcases hrow with ⟨nm, _, hsome⟩
    cases hget : notebook_utils.hget myhdf5 nm with
    | none => rw [hget] at hsome; simp at hsome
    | some info =>
        rw [hget] at hsome
        simp only [Option.map_some', Option.some.injEq] at hsome
        have hname : row.name = nm := by rw [← hsome]; rfl
        refine ⟨info, by rw [hname]; exact hget, ?_, ?_, ?_, ?_, ?_⟩ <;>
          rw [← hsome] <;> rfl

/-- C8 witness: searching the concrete two-series container for "flap"
returns exactly the one matching series, with the mapping column populated
for the multistate series. -/
theorem C8_hdf_search_table_witness :
    ((notebook_utils.hdf_search hdfExample "flap").map notebook_utils.HdfRow.name =
      ["Flap Lever"]) ∧
    ∃ info : SeriesInfo,
      notebook_utils.hget hdfExample
          (notebook_utils.mkRow "Flap Lever"
            ⟨false, 1, "int", none, true, [(0, "Up"), (1, "Down")]⟩).name = some info ∧
      (notebook_utils.mkRow "Flap Lever"
          ⟨false, 1, "int", none, true, [(0, "Up"), (1, "Down")]⟩).recorded =
        (if info.lfl then 'T' else 'F') ∧
      (notebook_utils.mkRow "Flap Lever"
          ⟨false, 1, "int", none, true, [(0, "Up"), (1, "Down")]⟩).frequency =
        info.frequency ∧
      (notebook_utils.mkRow "Flap Lever"
          ⟨false, 1, "int", none, true, [(0, "Up"), (1, "Down")]⟩).data_type =
        info.data_type ∧
      (notebook_utils.mkRow "Flap Lever"
          ⟨false, 1, "int", none, true, [(0, "Up"), (1, "Down")]⟩).units =
        info.units.getD "" ∧
      (notebook_utils.mkRow "Flap Lever"
          ⟨false, 1, "int", none, true, [(0, "Up"), (1, "Down")]⟩).values =
        (if info.isMultistate then some info.values_mapping else none) := by
  have h := C8_hdf_search_table hdfExample "flap"
  constructor
  · rw [h.1]; decide
  · exact h.2 (notebook_utils.mkRow "Flap Lever"
      ⟨false, 1, "int", none, true, [(0, "Up"), (1, "Down")]⟩) (by decide)

/-- C9: `show_graph` never propagates an exception raised by the
layout-and-draw call: whatever that call does, the function returns normally
(an `ok` result, never an embedded propagated exception), with the figure
size reset to (10, 4). -/
theorem C9_show_graph_swallows (draw : Nat × Nat → Except String Unit) :
    ∃ out : (Nat × Nat) × List String,
      notebook_utils.show_graph draw = Except.ok out ∧ out.1 = (10, 4) := by
  cases h : draw (16, 12) with
  | ok u =>
      exact ⟨((10, 4), []), by simp [notebook_utils.show_graph, h], rfl⟩
  | error e =>
      exact ⟨((10, 4), ["hmm, apparently bogus exception"]),
        by simp [notebook_utils.show_graph, h], rfl⟩
